import Mathlib

/-!
Verification of the streaming/transport layer of the open-claude Electron app.

Strings from the TypeScript source are embedded as `List Char`.  The SSE
chunk-framing loop inside `streamCompletion` (src/api/client.ts), the
`makeRequest` response handling, and the `parseStoredMessageContent` walk of
the renderer are translated directly from the source.  The stream
reconstructor (`src/streaming/parser`, imported by src/main.ts but absent
from the sources) is modelled from the specification where noted.
-/

namespace OpenClaude

/-- The newline delimiter used by the framing loop (`buffer.split('\n')`). -/
def nl : Char := '\n'

/-- Whether a character list contains a newline. -/
def hasNl : List Char → Bool
  | [] => false
  | c :: cs => if c = nl then true else hasNl cs

/-- JavaScript `s.split('\n')` on a character list: returns the (always
non-empty) list of segments between newlines, in order. -/
def splitNl : List Char → List (List Char)
  | [] => [[]]
  | c :: cs =>
    if c = nl then [] :: splitNl cs
    else
      match splitNl cs with
      | [] => [[c]]
      | l :: ls => (c :: l) :: ls

/-- One step of the line/remainder decomposition: prepend a character to a
pair of (complete lines, trailing fragment). -/
def frameStep (c : Char) (p : List (List Char) × List Char) :
    List (List Char) × List Char :=
  if c = nl then ([] :: p.1, p.2)
  else
    match p.1 with
    | [] => ([], c :: p.2)
    | l :: ls => ((c :: l) :: ls, p.2)

/-- Decompose a character stream into its newline-terminated complete lines
and the trailing (possibly empty) fragment after the last newline. -/
def frame : List Char → List (List Char) × List Char
  | [] => ([], [])
  | c :: cs => frameStep c (frame cs)

theorem frame_cons (c : Char) (s : List Char) :
    frame (c :: s) = frameStep c (frame s) := rfl

theorem splitNl_ne_nil (s : List Char) : splitNl s ≠ [] := by
  cases s with
  | nil => simp [splitNl]
  | cons c cs =>
    unfold splitNl
    split
    · simp
    · split <;> simp

theorem splitNl_cons (c : Char) (cs : List Char) :
    splitNl (c :: cs) =
      if c = nl then [] :: splitNl cs
      else
        match splitNl cs with
        | [] => [[c]]
        | l :: ls => (c :: l) :: ls := by
  rw [splitNl]

theorem splitNl_eq_frame (s : List Char) :
    splitNl s = (frame s).1 ++ [(frame s).2] := by
  induction s with
  | nil => simp [splitNl, frame]
  | cons c cs ih =>
    rw [frame_cons]
    by_cases hc : c = nl
    · have h1 : splitNl (c :: cs) = [] :: splitNl cs := by
        rw [splitNl_cons, if_pos hc]
      rw [h1, ih]
      simp [frameStep, hc]
    · cases hA : (frame cs).1 with
      | nil =>
        have hs : splitNl cs = [(frame cs).2] := by rw [ih, hA]; rfl
        have h1 : splitNl (c :: cs) = [c :: (frame cs).2] := by
          rw [splitNl_cons, if_neg hc, hs]
        rw [h1]
        simp [frameStep, hc, hA]
      | cons l ls =>
        have hs : splitNl cs = l :: (ls ++ [(frame cs).2]) := by
          rw [ih, hA]; rfl
        have h1 : splitNl (c :: cs) = (c :: l) :: (ls ++ [(frame cs).2]) := by
          rw [splitNl_cons, if_neg hc, hs]
        rw [h1]
        simp [frameStep, hc, hA]

theorem frame_rest_nlfree (s : List Char) : hasNl (frame s).2 = false := by
  induction s with
  | nil => simp [frame, hasNl]
  | cons c cs ih =>
    rw [frame_cons]
    by_cases hc : c = nl
    · simpa [frameStep, hc] using ih
    · cases hA : (frame cs).1 with
      | nil => simpa [frameStep, hc, hA, hasNl] using ih
      | cons l ls => simpa [frameStep, hc, hA] using ih

theorem frame_nlfree (s : List Char) (h : hasNl s = false) : frame s = ([], s) := by
  induction s with
  | nil => simp [frame]
  | cons c cs ih =>
    rw [hasNl] at h
    by_cases hc : c = nl
    · simp [hc] at h
    · rw [if_neg hc] at h
      rw [frame_cons, ih h]
      simp [frameStep, hc]

theorem frame_lines_nlfree (s : List Char) :
    ((frame s).1.all fun l => ! hasNl l) = true := by
  induction s with
  | nil => simp [frame]
  | cons c cs ih =>
    rw [frame_cons]
    by_cases hc : c = nl
    · simp only [frameStep, hc, if_true, List.all_cons, ih, Bool.and_true]
      simp [hasNl]
    · cases hA : (frame cs).1 with
      | nil => simp [frameStep, hc, hA]
      | cons l ls =>
        rw [hA] at ih
        simp only [frameStep, hc, if_false, hA, List.all_cons, Bool.and_eq_true] at ih ⊢
        refine ⟨?_, ih.2⟩
        simpa [hasNl, hc] using ih.1

/-- Re-join a list of complete lines, restoring the newline terminators. -/
def joinLines (ls : List (List Char)) : List Char :=
  (ls.map fun l => l ++ [nl]).flatten

theorem frame_reconstruct (s : List Char) :
    joinLines (frame s).1 ++ (frame s).2 = s := by
  induction s with
  | nil => simp [frame, joinLines]
  | cons c cs ih =>
    rw [frame_cons]
    by_cases hc : c = nl
    · subst hc
      simp only [frameStep, if_true]
      have h2 : joinLines ([] :: (frame cs).1) = nl :: joinLines (frame cs).1 := by
        simp [joinLines]
      rw [h2, List.cons_append, ih]
    · cases hA : (frame cs).1 with
      | nil =>
        rw [hA] at ih
        simp only [joinLines, List.map_nil, List.flatten_nil, List.nil_append] at ih
        simp only [frameStep, hc, if_false, hA]
        simp [joinLines, ih]
      | cons l ls =>
        rw [hA] at ih
        simp only [frameStep, hc, if_false, hA]
        simp only [joinLines, List.map_cons, List.flatten_cons, List.append_assoc,
          List.cons_append] at ih ⊢
        rw [ih]

theorem frame_append (xs ys : List Char) :
    frame (xs ++ ys) =
      ((frame xs).1 ++ (frame ((frame xs).2 ++ ys)).1,
       (frame ((frame xs).2 ++ ys)).2) := by
  induction xs with
  | nil => simp [frame]
  | cons c cs ih =>
    rw [List.cons_append, frame_cons, ih, frame_cons]
    by_cases hc : c = nl
    · simp [frameStep, hc]
    · cases hA : (frame cs).1 with
      | nil =>
        have h1 : frameStep c (frame cs) = ([], c :: (frame cs).2) := by
          simp [frameStep, hc, hA]
        rw [h1]
        rcases hB : frame ((frame cs).2 ++ ys) with ⟨B1, B2⟩
        simp only [hA, List.nil_append, hB]
        rw [List.cons_append, frame_cons, hB]
      | cons l ls =>
        have h1 : frameStep c (frame cs) = ((c :: l) :: ls, (frame cs).2) := by
          simp [frameStep, hc, hA]
        rw [h1]
        simp [frameStep, hc, hA, List.cons_append]

/-! ### The chunk-framing loop of `streamCompletion` (src/api/client.ts:284-295)

```
let buffer = '';
response.on('data', (chunk) => {
  buffer += chunk.toString();
  const lines = buffer.split('\n');
  buffer = lines.pop() || '';
  for (const line of lines) {
    if (line.startsWith('data: ')) { onData(line + '\n'); }
  }
});
response.on('end', () => { resolve(); });
```
-/

/-- The `'data: '` marker checked by `line.startsWith('data: ')`. -/
def dataMarker : List Char := ['d', 'a', 't', 'a', ':', ' ']

/-- JavaScript `marker-string.startsWith` specialised to a marker argument:
`startsWithMarker m l` is true when `m` is an initial segment of `l`. -/
def startsWithMarker : List Char → List Char → Bool
  | [], _ => true
  | _ :: _, [] => false
  | p :: ps, c :: cs => p = c && startsWithMarker ps cs

/-- The `onData` invocations made by the for-loop over one batch of complete
lines: marker-filtered lines, each with the `'\n'` re-appended. -/
def onDataLines (ls : List (List Char)) : List (List Char) :=
  (ls.filter fun l => startsWithMarker dataMarker l).map fun l => l ++ [nl]

/-- One `response.on('data')` callback body: append the chunk to the carry
buffer, split on newlines, pop the trailing fragment back into the buffer and
return it together with the batch of complete lines handed to the loop. -/
def processChunk (buffer chunk : List Char) : List Char × List (List Char) :=
  let lines := splitNl (buffer ++ chunk)
  ((lines.getLast?).getD [], lines.dropLast)

theorem processChunk_eq_frame (b c : List Char) :
    processChunk b c = ((frame (b ++ c)).2, (frame (b ++ c)).1) := by
  unfold processChunk
  rw [splitNl_eq_frame (b ++ c)]
  simp [List.getLast?_concat, List.dropLast_concat]

/-- Fold state for a full stream: (carry buffer, `onData` calls so far). -/
def feedChunk (st : List Char × List (List Char)) (chunk : List Char) :
    List Char × List (List Char) :=
  let r := processChunk st.1 chunk
  (r.1, st.2 ++ onDataLines r.2)

/-- Fold state tracking the raw framed lines instead of the filtered
`onData` calls (the `lines` arrays handed to the for-loop, concatenated). -/
def feedFrame (st : List Char × List (List Char)) (chunk : List Char) :
    List Char × List (List Char) :=
  let r := processChunk st.1 chunk
  (r.1, st.2 ++ r.2)

/-- Run the framing loop over a whole sequence of delivered chunks, starting
from the empty buffer, collecting every `onData` call in order. -/
def runOnData (chunks : List (List Char)) : List Char × List (List Char) :=
  chunks.foldl feedChunk ([], [])

/-- Run the framing loop over a sequence of chunks, collecting every complete
line the loop iterates over (before the `'data: '` filter), in order. -/
def runFramed (chunks : List (List Char)) : List Char × List (List Char) :=
  chunks.foldl feedFrame ([], [])

theorem hasNl_append (a b : List Char) :
    hasNl (a ++ b) = (hasNl a || hasNl b) := by
  induction a with
  | nil => simp [hasNl]
  | cons c cs ih =>
    by_cases hc : c = nl <;> simp [hasNl, hc, ih]

theorem onDataLines_append (a b : List (List Char)) :
    onDataLines (a ++ b) = onDataLines a ++ onDataLines b := by
  simp [onDataLines]

theorem foldl_feedFrame (chunks : List (List Char)) :
    ∀ (b : List Char) (acc : List (List Char)), hasNl b = false →
      chunks.foldl feedFrame (b, acc) =
        ((frame (b ++ chunks.flatten)).2, acc ++ (frame (b ++ chunks.flatten)).1) := by
  induction chunks with
  | nil =>
    intro b acc hb
    simp [frame_nlfree b hb]
  | cons c rest ih =>
    intro b acc hb
    have hstep : feedFrame (b, acc) c = ((frame (b ++ c)).2, acc ++ (frame (b ++ c)).1) := by
      simp [feedFrame, processChunk_eq_frame]
    rw [List.foldl_cons, hstep, ih _ _ (frame_rest_nlfree (b ++ c))]
    rw [List.flatten_cons, ← List.append_assoc, frame_append (b ++ c) rest.flatten]
    simp [List.append_assoc]

theorem foldl_feedChunk (chunks : List (List Char)) :
    ∀ (b : List Char) (acc : List (List Char)), hasNl b = false →
      chunks.foldl feedChunk (b, acc) =
        ((frame (b ++ chunks.flatten)).2,
         acc ++ onDataLines (frame (b ++ chunks.flatten)).1) := by
  induction chunks with
  | nil =>
    intro b acc hb
    simp [frame_nlfree b hb, onDataLines]
  | cons c rest ih =>
    intro b acc hb
    have hstep : feedChunk (b, acc) c =
        ((frame (b ++ c)).2, acc ++ onDataLines (frame (b ++ c)).1) := by
      simp [feedChunk, processChunk_eq_frame]
    rw [List.foldl_cons, hstep, ih _ _ (frame_rest_nlfree (b ++ c))]
    rw [List.flatten_cons, ← List.append_assoc, frame_append (b ++ c) rest.flatten]
    rw [onDataLines_append]
    simp [List.append_assoc]

/-- The overall result of `streamCompletion`'s `response` handler: if the
status is not 200 the body is accumulated into `errorData` and the promise is
rejected after `end` (the framing handler and `onData` are never attached);
otherwise the chunks are framed, `onData` is called for each `'data: '` line,
and the promise resolves at `end` (src/api/client.ts:274-300). -/
inductive StreamResult where
  | resolved : StreamResult
  | rejected : Nat → List Char → StreamResult
deriving DecidableEq

/-- Run `streamCompletion`'s response handling for a given HTTP status and
chunk sequence; returns the settled promise state and the full list of
`onData` invocations, in order. -/
def streamRun (status : Nat) (chunks : List (List Char)) :
    StreamResult × List (List Char) :=
  if status = 200 then (.resolved, (runOnData chunks).2)
  else (.rejected status chunks.flatten, [])

/-- C1. Framing is split-invariant: for every SSE payload (= the
concatenation of the delivered chunks) and every partition of it into
successive chunks, the sequence of lines the chunk-framing loop in
`streamCompletion` delivers to the `onData` callback equals the sequence
delivered when the whole payload is fed as a single chunk. -/
theorem framing_split_invariant (chunks : List (List Char)) :
    (runOnData chunks).2 = (runOnData [chunks.flatten]).2 := by
  unfold runOnData
  rw [foldl_feedChunk chunks [] [] rfl, foldl_feedChunk [chunks.flatten] [] [] rfl]
  simp

/-- C4. The chunk framer emits every complete newline-delimited line of the
underlying stream exactly once and in original order, and emits no line
before a subsequent newline confirms it is complete: after any number `n` of
delivered chunks, the lines handed to the loop are exactly the
newline-terminated lines of the data received so far (first conjunct); the
remaining conjuncts characterise `(frame s).1` as precisely that line
decomposition (the lines joined with their newline terminators, followed by
the newline-free trailing fragment, reconstruct the stream). -/
theorem chunk_framer_exactness (chunks : List (List Char)) (n : Nat) :
    (runFramed (chunks.take n)).2 = (frame (chunks.take n).flatten).1
    ∧ joinLines (frame chunks.flatten).1 ++ (frame chunks.flatten).2 = chunks.flatten
    ∧ ((frame chunks.flatten).1.all fun l => ! hasNl l) = true
    ∧ hasNl (frame chunks.flatten).2 = false := by
  refine ⟨?_, frame_reconstruct _, frame_lines_nlfree _, frame_rest_nlfree _⟩
  unfold runFramed
  rw [foldl_feedFrame (chunks.take n) [] [] rfl]
  simp

/-- C5. At stream end, buffered content after the last newline is discarded
silently: appending a trailing fragment that contains no newline to the
delivered chunks changes neither the `onData` call sequence nor the resolved
outcome of `streamCompletion`. -/
theorem trailing_fragment_discarded (chunks : List (List Char))
    (frag : List Char) (h : hasNl frag = false) :
    (streamRun 200 (chunks ++ [frag])).1 = StreamResult.resolved
    ∧ streamRun 200 (chunks ++ [frag]) = streamRun 200 chunks := by
  have houts : (runOnData (chunks ++ [frag])).2 = (runOnData chunks).2 := by
    unfold runOnData
    rw [foldl_feedChunk (chunks ++ [frag]) [] [] rfl, foldl_feedChunk chunks [] [] rfl]
    simp only [List.nil_append]
    have hflat : (chunks ++ [frag]).flatten = chunks.flatten ++ frag := by
      simp
    rw [hflat, frame_append chunks.flatten frag]
    have hrf : hasNl ((frame chunks.flatten).2 ++ frag) = false := by
      rw [hasNl_append, frame_rest_nlfree, h]
      rfl
    rw [frame_nlfree _ hrf]
    simp
  constructor
  · simp [streamRun]
  · simp [streamRun, houts]

/-- Concrete instance for `trailing_fragment_discarded`: a complete
`data:`-line followed by a newline-free trailing fragment. -/
theorem trailing_fragment_discarded_witness :
    hasNl ("data: x").toList = false
    ∧ ((streamRun 200 ([("data: a\n").toList] ++ [("data: x").toList])).1
        = StreamResult.resolved
      ∧ streamRun 200 ([("data: a\n").toList] ++ [("data: x").toList])
        = streamRun 200 [("data: a\n").toList]) :=
  ⟨by decide, trailing_fragment_discarded [("data: a\n").toList] (("data: x").toList) (by decide)⟩

/-! ### A JSON value model and executable parser

`JSON.parse` is a host-runtime primitive in the source; it is modelled here
by an executable recursive-descent parser over character lists (fuelled so
the recursion is structural and kernel-evaluable).  The parser accepts
objects, arrays, strings with the standard escapes, numerals, `true`,
`false` and `null`, and rejects everything else or any trailing garbage. -/

inductive Json where
  | jnull : Json
  | jbool : Bool → Json
  | jnum : List Char → Json
  | jstr : List Char → Json
  | jarr : List Json → Json
  | jobj : List (List Char × Json) → Json

/-- Whitespace skipped between JSON tokens. -/
def isWs (c : Char) : Bool := c = ' ' || c = nl || c = '\t' || c = '\r'

def skipWs : List Char → List Char
  | [] => []
  | c :: cs => if isWs c then skipWs cs else c :: cs

def isDigit (c : Char) : Bool := '0' ≤ c && c ≤ '9'

def hexDigitVal (c : Char) : Option Nat :=
  let n := c.toNat
  if 48 ≤ n && n ≤ 57 then some (n - 48)
  else if 97 ≤ n && n ≤ 102 then some (n - 87)
  else if 65 ≤ n && n ≤ 70 then some (n - 55)
  else none

/-- Single-character string escapes (`\u` is handled separately). -/
def escChar (e : Char) : Option Char :=
  if e = '"' then some '"'
  else if e = '\\' then some '\\'
  else if e = '/' then some '/'
  else if e = 'b' then some (Char.ofNat 8)
  else if e = 'f' then some (Char.ofNat 12)
  else if e = 'n' then some nl
  else if e = 'r' then some '\r'
  else if e = 't' then some '\t'
  else none

def hex4 : List Char → Option (Char × List Char)
  | a :: b :: c :: d :: rest =>
    match hexDigitVal a, hexDigitVal b, hexDigitVal c, hexDigitVal d with
    | some x, some y, some z, some w =>
      some (Char.ofNat (((x * 16 + y) * 16 + z) * 16 + w), rest)
    | _, _, _, _ => none
  | _ => none

/-- Parse a string body after the opening quote; returns the decoded
characters and the remainder after the closing quote. -/
def parseStringBody : Nat → List Char → Option (List Char × List Char)
  | 0, _ => none
  | _, [] => none
  | fuel + 1, c :: cs =>
    if c = '"' then some ([], cs)
    else if c = '\\' then
      match cs with
      | [] => none
      | 'u' :: cs2 =>
        match hex4 cs2 with
        | some (d, cs3) => (parseStringBody fuel cs3).map fun r => (d :: r.1, r.2)
        | none => none
      | e :: cs2 =>
        match escChar e with
        | some d => (parseStringBody fuel cs2).map fun r => (d :: r.1, r.2)
        | none => none
    else (parseStringBody fuel cs).map fun r => (c :: r.1, r.2)

def spanDigits : List Char → List Char × List Char
  | [] => ([], [])
  | c :: cs =>
    if isDigit c then
      match spanDigits cs with
      | (d, r) => (c :: d, r)
    else ([], c :: cs)

def parseFrac : List Char → Option (List Char × List Char)
  | '.' :: cs =>
    match spanDigits cs with
    | ([], _) => none
    | (d, r) => some ('.' :: d, r)
  | s => some ([], s)

def parseExp : List Char → Option (List Char × List Char)
  | c :: cs =>
    if c = 'e' || c = 'E' then
      match cs with
      | k :: cs2 =>
        if k = '+' || k = '-' then
          match spanDigits cs2 with
          | ([], _) => none
          | (d, r) => some (c :: k :: d, r)
        else
          match spanDigits (k :: cs2) with
          | ([], _) => none
          | (d, r) => some (c :: d, r)
      | [] => none
    else some ([], c :: cs)
  | [] => some ([], [])

def parseNumBody (cs : List Char) : Option (List Char × List Char) :=
  match spanDigits cs with
  | ([], _) => none
  | (d, rest) =>
    match parseFrac rest with
    | none => none
    | some (f, rest2) =>
      match parseExp rest2 with
      | none => none
      | some (e, rest3) => some (d ++ f ++ e, rest3)

def parseNum : List Char → Option (List Char × List Char)
  | '-' :: cs => (parseNumBody cs).map fun r => ('-' :: r.1, r.2)
  | cs => parseNumBody cs

/-- Result alternatives for the single fuelled parsing function. -/
inductive POut where
  | vOut : Json → POut
  | lOut : List Json → POut
  | fOut : List (List Char × Json) → POut

/-- Parsing modes: a value, the inside of an array (first element or `]`),
the continuation of an array, the inside of an object, the continuation of
an object. -/
inductive PMode where
  | mValue : PMode
  | mElems : PMode
  | mMoreElems : PMode
  | mFields : PMode
  | mMoreFields : PMode

def parseGo : Nat → PMode → List Char → Option (POut × List Char)
  | 0, _, _ => none
  | fuel + 1, .mValue, s =>
    match skipWs s with
    | 't' :: 'r' :: 'u' :: 'e' :: rest => some (.vOut (.jbool true), rest)
    | 'f' :: 'a' :: 'l' :: 's' :: 'e' :: rest => some (.vOut (.jbool false), rest)
    | 'n' :: 'u' :: 'l' :: 'l' :: rest => some (.vOut .jnull, rest)
    | '"' :: cs =>
      match parseStringBody (cs.length + 1) cs with
      | some (str, rest) => some (.vOut (.jstr str), rest)
      | none => none
    | '[' :: cs =>
      match parseGo fuel .mElems cs with
      | some (.lOut xs, rest) => some (.vOut (.jarr xs), rest)
      | _ => none
    | '{' :: cs =>
      match parseGo fuel .mFields cs with
      | some (.fOut fs, rest) => some (.vOut (.jobj fs), rest)
      | _ => none
    | c :: cs =>
      if c = '-' || isDigit c then
        match parseNum (c :: cs) with
        | some (raw, rest) => some (.vOut (.jnum raw), rest)
        | none => none
      else none
    | [] => none
  | fuel + 1, .mElems, s =>
    match skipWs s with
    | ']' :: rest => some (.lOut [], rest)
    | s2 =>
      match parseGo fuel .mValue s2 with
      | some (.vOut v, rest) =>
        match parseGo fuel .mMoreElems rest with
        | some (.lOut xs, rest2) => some (.lOut (v :: xs), rest2)
        | _ => none
      | _ => none
  | fuel + 1, .mMoreElems, s =>
    match skipWs s with
    | ']' :: rest => some (.lOut [], rest)
    | ',' :: cs =>
      match parseGo fuel .mValue cs with
      | some (.vOut v, rest) =>
        match parseGo fuel .mMoreElems rest with
        | some (.lOut xs, rest2) => some (.lOut (v :: xs), rest2)
        | _ => none
      | _ => none
    | _ => none
  | fuel + 1, .mFields, s =>
    match skipWs s with
    | '}' :: rest => some (.fOut [], rest)
    | '"' :: cs =>
      match parseStringBody (cs.length + 1) cs with
      | some (key, rest) =>
        match skipWs rest with
        | ':' :: rest2 =>
          match parseGo fuel .mValue rest2 with
          | some (.vOut v, rest3) =>
            match parseGo fuel .mMoreFields rest3 with
            | some (.fOut fs, rest4) => some (.fOut ((key, v) :: fs), rest4)
            | _ => none
          | _ => none
        | _ => none
      | none => none
    | _ => none
  | fuel + 1, .mMoreFields, s =>
    match skipWs s with
    | '}' :: rest => some (.fOut [], rest)
    | ',' :: cs =>
      match skipWs cs with
      | '"' :: cs2 =>
        match parseStringBody (cs2.length + 1) cs2 with
        | some (key, rest) =>
          match skipWs rest with
          | ':' :: rest2 =>
            match parseGo fuel .mValue rest2 with
            | some (.vOut v, rest3) =>
              match parseGo fuel .mMoreFields rest3 with
              | some (.fOut fs, rest4) => some (.fOut ((key, v) :: fs), rest4)
              | _ => none
            | _ => none
          | _ => none
        | none => none
      | _ => none
    | _ => none

/-- Model of `JSON.parse`: parse one value and require only whitespace to
remain; any failure (including trailing garbage) is the thrown
`SyntaxError`, modelled as `none`. -/
def jsonParse (s : List Char) : Option Json :=
  match parseGo (2 * s.length + 2) .mValue s with
  | some (.vOut j, rest) => if skipWs rest = [] then some j else none
  | _ => none

/-- Field lookup on a parsed JSON object (first binding wins). -/
def lookupField : List (List Char × Json) → List Char → Option Json
  | [], _ => none
  | (k2, v) :: rest, k => if k2 = k then some v else lookupField rest k

def getField : Json → List Char → Option Json
  | .jobj fields, k => lookupField fields k
  | _, _ => none

def asStr : Json → Option (List Char)
  | .jstr s => some s
  | _ => none

def natOfDigits (ds : List Char) : Nat :=
  ds.foldl (fun a c => a * 10 + (c.toNat - ('0').toNat)) 0

def asNat : Json → Option Nat
  | .jnum raw => if !raw.isEmpty && raw.all isDigit then some (natOfDigits raw) else none
  | _ => none

/-! ### The Stream Reconstructor

The module `src/streaming/parser` (imported by src/main.ts as
`createStreamState`, `processSSEChunk` and `StreamCallbacks`) is not present
in the sources; everything in this section is modelled from the
specification (spec.md sections 3, 4.2 and 4.3). -/

/-- Modelled from the spec: the content-block variants maintained by the
missing reconstructor — `Text` (accumulated text), `Thinking` (accumulated
thinking text and appended summaries) and `ToolUse` (tool name and the
partial-JSON accumulator).  Citations, timestamps and approval keys are not
tracked; no claim depends on them. -/
inductive CBlock where
  | textB : List Char → CBlock
  | thinkB : List Char → List (List Char) → CBlock
  | toolUseB : List Char → List Char → CBlock
deriving DecidableEq

/-- Modelled from the spec: the per-stream `StreamState` — block map,
concatenated full-response text and the last message uuid (read by
src/main.ts:803 as `state.fullResponse` / `state.lastMessageUuid`). -/
structure StreamState where
  contentBlocks : List (Nat × CBlock)
  fullResponse : List Char
  lastMessageUuid : Option (List Char)
deriving DecidableEq

/-- Modelled from the spec: a fresh stream state per request. -/
def createStreamState : StreamState := ⟨[], [], none⟩

/-- Modelled from the spec: decoded server events forwarded to the
reconstructor (spec wire taxonomy; unknown types map to `unknownEvent`). -/
inductive SEvent where
  | blockStart : Nat → CBlock → SEvent
  | textDelta : Nat → List Char → SEvent
  | thinkingDelta : Nat → List Char → SEvent
  | summaryDelta : Nat → List Char → SEvent
  | inputJsonDelta : Nat → List Char → SEvent
  | blockStop : Nat → SEvent
  | messageStop : Option (List Char) → SEvent
  | ping : SEvent
  | unknownEvent : SEvent

/-- Modelled from the spec: the callback invocations of the Callback Sink
(the `StreamCallbacks` wired in src/main.ts:728-794), recorded as a trace.
Payloads are reduced to the parts a claim mentions; `onComplete` carries the
full response text and the last message uuid. -/
inductive CbEvent where
  | onTextDelta : List Char → List Char → Nat → CbEvent
  | onThinkingStart : Nat → CbEvent
  | onThinkingDelta : List Char → Nat → CbEvent
  | onThinkingStop : List Char → List (List Char) → Nat → CbEvent
  | onToolStart : List Char → Nat → CbEvent
  | onToolStop : List Char → Json → Nat → CbEvent
  | onComplete : List Char → Option (List Char) → CbEvent

/-- Insert (or defensively overwrite) a block at an index, keeping the map
sorted by index. -/
def insertBlock : List (Nat × CBlock) → Nat → CBlock → List (Nat × CBlock)
  | [], i, b => [(i, b)]
  | (j, c) :: rest, i, b =>
    if i < j then (i, b) :: (j, c) :: rest
    else if i = j then (i, b) :: rest
    else (j, c) :: insertBlock rest i b

def lookupBlock : List (Nat × CBlock) → Nat → Option CBlock
  | [], _ => none
  | (j, c) :: rest, i => if j = i then some c else lookupBlock rest i

/-- Apply an update to the block stored at an index (no-op when absent). -/
def modifyBlock (f : CBlock → CBlock) : List (Nat × CBlock) → Nat → List (Nat × CBlock)
  | [], _ => []
  | (j, b) :: rest, i =>
    if j = i then (j, f b) :: rest else (j, b) :: modifyBlock f rest i

/-- Concatenation of all text-bearing blocks in index order (spec: the
recomputed `fullResponseText`). -/
def textsOf : List (Nat × CBlock) → List Char
  | [] => []
  | (_, .textB t) :: rest => t ++ textsOf rest
  | _ :: rest => textsOf rest

/-- Modelled from the spec: one reconstructor transition per decoded event
(spec section 4.3), returning the next state and the callbacks fired.  On a
text delta the full-response text is recomputed from all text blocks in
index order; a tool-use block-stop parses the accumulated partial JSON,
falling back to an empty object; a message-stop records the uuid, and the
completion callback carries the state at that point. -/
def stepEvent (st : StreamState) : SEvent → StreamState × List CbEvent
  | .blockStart i b =>
    ({ st with contentBlocks := insertBlock st.contentBlocks i b },
     match b with
     | .thinkB _ _ => [.onThinkingStart i]
     | .toolUseB name _ => [.onToolStart name i]
     | .textB _ => [])
  | .textDelta i frag =>
    let blocks := modifyBlock
      (fun b => match b with | .textB t => .textB (t ++ frag) | b2 => b2)
      st.contentBlocks i
    let full := textsOf blocks
    ({ st with contentBlocks := blocks, fullResponse := full },
     [.onTextDelta frag full i])
  | .thinkingDelta i frag =>
    let blocks := modifyBlock
      (fun b => match b with | .thinkB t ss => .thinkB (t ++ frag) ss | b2 => b2)
      st.contentBlocks i
    ({ st with contentBlocks := blocks }, [.onThinkingDelta frag i])
  | .summaryDelta i s =>
    let blocks := modifyBlock
      (fun b => match b with | .thinkB t ss => .thinkB t (ss ++ [s]) | b2 => b2)
      st.contentBlocks i
    ({ st with contentBlocks := blocks }, [])
  | .inputJsonDelta i frag =>
    let blocks := modifyBlock
      (fun b => match b with | .toolUseB n acc => .toolUseB n (acc ++ frag) | b2 => b2)
      st.contentBlocks i
    ({ st with contentBlocks := blocks }, [])
  | .blockStop i =>
    match lookupBlock st.contentBlocks i with
    | some (.thinkB t ss) => (st, [.onThinkingStop t ss i])
    | some (.toolUseB n acc) => (st, [.onToolStop n ((jsonParse acc).getD (.jobj [])) i])
    | _ => (st, [])
  | .messageStop uuid =>
    let st2 := { st with lastMessageUuid :=
      match uuid with | some u => some u | none => st.lastMessageUuid }
    (st2, [.onComplete st2.fullResponse st2.lastMessageUuid])
  | .ping => (st, [])
  | .unknownEvent => (st, [])

def tyKey : List Char := ("type").toList
def ixKey : List Char := ("index").toList
def cbKey : List Char := ("content_block").toList
def nameKey : List Char := ("name").toList
def deltaKey : List Char := ("delta").toList
def textKey : List Char := ("text").toList
def thinkingKey : List Char := ("thinking").toList
def pjKey : List Char := ("partial_json").toList
def summaryKey : List Char := ("summary").toList
def uuidKey : List Char := ("uuid").toList

/-- Modelled from the spec: map a decoded JSON record to a typed event via
its `type` discriminator; unrecognized types become `unknownEvent` (safely
ignorable no-ops, spec section 4.2). -/
def eventOfJson (j : Json) : SEvent :=
  match (getField j tyKey).bind asStr with
  | none => .unknownEvent
  | some t =>
    let idx := ((getField j ixKey).bind asNat).getD 0
    if t = ("block_start").toList then
      match (getField j cbKey).bind fun cb => (getField cb tyKey).bind asStr with
      | some bt =>
        if bt = ("text").toList then .blockStart idx (.textB [])
        else if bt = ("thinking").toList then .blockStart idx (.thinkB [] [])
        else if bt = ("tool_use").toList then
          .blockStart idx (.toolUseB
            (((getField j cbKey).bind fun cb => (getField cb nameKey).bind asStr).getD []) [])
        else .unknownEvent
      | none => .unknownEvent
    else if t = ("block_delta").toList then
      match getField j deltaKey with
      | some d =>
        match (getField d textKey).bind asStr with
        | some s => .textDelta idx s
        | none =>
          match (getField d thinkingKey).bind asStr with
          | some s => .thinkingDelta idx s
          | none =>
            match (getField d pjKey).bind asStr with
            | some s => .inputJsonDelta idx s
            | none =>
              match (getField d summaryKey).bind asStr with
              | some s => .summaryDelta idx s
              | none => .unknownEvent
      | none => .unknownEvent
    else if t = ("block_stop").toList then .blockStop idx
    else if t = ("message_stop").toList then .messageStop ((getField j uuidKey).bind asStr)
    else if t = ("ping").toList then .ping
    else .unknownEvent

/-- Modelled from the spec: the Event Decoder (spec section 4.2) — a line
without the `'data: '` marker is ignored; otherwise the remainder is
JSON-parsed, a failure dropping the event and a success yielding a typed
event. -/
def decodeLine (line : List Char) : Option SEvent :=
  if startsWithMarker dataMarker line then
    match jsonParse (line.drop dataMarker.length) with
    | some j => some (eventOfJson j)
    | none => none
  else none

/-- Modelled from the spec: process a batch of lines in order, threading the
state and concatenating the callback traces; undecodable lines are skipped
and never abort the run. -/
def runLines : StreamState → List (List Char) → StreamState × List CbEvent
  | st, [] => (st, [])
  | st, l :: ls =>
    match decodeLine l with
    | none => runLines st ls
    | some e =>
      match stepEvent st e with
      | (st2, cbs) =>
        match runLines st2 ls with
        | (st3, cbs2) => (st3, cbs ++ cbs2)

/-- Modelled from the spec: `processSSEChunk` — frame the delivered chunk
into complete lines and decode each in order. -/
def processSSEChunk (st : StreamState) (chunk : List Char) :
    StreamState × List CbEvent :=
  runLines st (frame chunk).1

/-- Run the reconstructor over every chunk handed to `onData`, in order. -/
def runParser : StreamState → List (List Char) → StreamState × List CbEvent
  | st, [] => (st, [])
  | st, c :: cs =>
    match processSSEChunk st c with
    | (st2, cbs) =>
      match runParser st2 cs with
      | (st3, cbs2) => (st3, cbs ++ cbs2)

/-- Process a sequence of already-decoded events (the reconstructor run of
spec section 4.3, starting from a given state). -/
def runEvents : StreamState → List SEvent → StreamState × List CbEvent
  | st, [] => (st, [])
  | st, e :: evs =>
    match stepEvent st e with
    | (st2, cbs) =>
      match runEvents st2 evs with
      | (st3, cbs2) => (st3, cbs ++ cbs2)

/-- The `send-message` handler composition (src/main.ts:725-803): the stream
transport feeds every `onData` chunk to `processSSEChunk` against a fresh
`createStreamState`; the result pairs the settled transport promise with the
reconstructor's final state and callback trace. -/
def sendMessageRun (status : Nat) (chunks : List (List Char)) :
    StreamResult × StreamState × List CbEvent :=
  let r := streamRun status chunks
  let p := runParser createStreamState r.2
  (r.1, p.1, p.2)

/-- C2. Transport errors are surfaced, never converted into success: when the
HTTP status is not 200, `streamCompletion` rejects after the body ends (with
the status and the accumulated error body) and `onData` is never invoked, so
the reconstructor's callback trace — which contains every stream callback,
`onComplete` included — is empty. -/
theorem transport_error_no_callbacks (status : Nat) (chunks : List (List Char))
    (h : status ≠ 200) :
    (sendMessageRun status chunks).1 = StreamResult.rejected status chunks.flatten
    ∧ (sendMessageRun status chunks).2.2 = [] := by
  constructor <;> simp [sendMessageRun, streamRun, h, runParser]

/-- Concrete instance for `transport_error_no_callbacks` at status 404. -/
theorem transport_error_no_callbacks_witness :
    (sendMessageRun 404 [("oops").toList]).1
      = StreamResult.rejected 404 ([("oops").toList].flatten)
    ∧ (sendMessageRun 404 [("oops").toList]).2.2 = [] :=
  transport_error_no_callbacks 404 [("oops").toList] (by decide)

theorem runEvents_textDeltas (i : Nat) (ds : List (List Char)) :
    ∀ (t f : List Char) (u : Option (List Char)),
      (runEvents ⟨[(i, .textB t)], f, u⟩ (ds.map fun d => SEvent.textDelta i d)).1
        = ⟨[(i, .textB (t ++ ds.flatten))],
           (match ds with | [] => f | _ :: _ => t ++ ds.flatten), u⟩ := by
  induction ds with
  | nil =>
    intro t f u
    simp [runEvents]
  | cons d rest ih =>
    intro t f u
    have hstep : stepEvent ⟨[(i, .textB t)], f, u⟩ (SEvent.textDelta i d)
        = (⟨[(i, .textB (t ++ d))], t ++ d, u⟩, [.onTextDelta d (t ++ d) i]) := by
      simp [stepEvent, modifyBlock, textsOf]
    simp only [List.map_cons, runEvents, hstep]
    rw [ih (t ++ d) (t ++ d) u]
    cases rest <;> simp [List.append_assoc]

/-- C3. Text accumulation correctness (spec-modelled reconstructor): after a
text block starts at index `i` and `N` text-delta events for that index are
processed, the stream state's full-response text equals the concatenation of
all `N` delta fragments in arrival order (and the block holds that same
accumulated text). -/
theorem text_accumulation_correct (i : Nat) (ds : List (List Char)) :
    ((runEvents createStreamState
        (SEvent.blockStart i (.textB []) :: ds.map fun d => SEvent.textDelta i d)).1).fullResponse
      = ds.flatten
    ∧ ((runEvents createStreamState
        (SEvent.blockStart i (.textB []) :: ds.map fun d => SEvent.textDelta i d)).1).contentBlocks
      = [(i, .textB ds.flatten)] := by
  have hstart : stepEvent createStreamState (SEvent.blockStart i (.textB []))
      = (⟨[(i, .textB [])], [], none⟩, []) := by
    simp [stepEvent, createStreamState, insertBlock]
  simp only [runEvents, hstart]
  rw [runEvents_textDeltas i ds [] [] none]
  cases ds <;> simp

/-- C6. Malformed-line resilience (spec-modelled decoder): a line carrying
the `'data: '` marker whose payload is not valid JSON drops only that line's
event — processing the stream with the line present equals processing it
with the line removed, so the stream is never aborted and the following
lines are processed normally. -/
theorem malformed_line_dropped (st : StreamState) (line : List Char)
    (rest : List (List Char))
    (h1 : startsWithMarker dataMarker line = true)
    (h2 : jsonParse (line.drop dataMarker.length) = none) :
    runLines st (line :: rest) = runLines st rest := by
  have hdec : decodeLine line = none := by
    unfold decodeLine
    rw [if_pos h1, h2]
  simp [runLines, hdec]

/-- Concrete instance for `malformed_line_dropped`: the spec's example pair
`data: {not valid json` followed by `data: {"type":"ping"}`. -/
theorem malformed_line_dropped_witness :
    startsWithMarker dataMarker (("data: \x7bnot valid json").toList) = true
    ∧ jsonParse ((("data: \x7bnot valid json").toList).drop dataMarker.length) = none
    ∧ runLines createStreamState
        [("data: \x7bnot valid json").toList, ("data: \x7b\"type\":\"ping\"\x7d").toList]
      = runLines createStreamState [("data: \x7b\"type\":\"ping\"\x7d").toList] :=
  ⟨by decide, by rfl,
   malformed_line_dropped createStreamState (("data: \x7bnot valid json").toList)
     [("data: \x7b\"type\":\"ping\"\x7d").toList] (by decide) (by rfl)⟩

/-! ### `makeRequest` (src/api/client.ts:168-211) -/

/-- The `data` field of a settled `makeRequest` response. -/
inductive RespData where
  | nullData : RespData
  | jsonData : Json → RespData
  | rawData : List Char → RespData

/-- A settled `makeRequest` promise. -/
inductive ReqResult where
  | resolvedWith : Nat → RespData → ReqResult
  | rejectedWith : List Char → ReqResult

/-- What the transport reported for one request: either the `error` event or
a response with a status code and a sequence of body chunks. -/
inductive TransportOutcome where
  | reqError : List Char → TransportOutcome
  | response : Nat → List (List Char) → TransportOutcome

/-- The `end` handler of `makeRequest` (src/api/client.ts:192-199): an empty
accumulated body resolves with `null` data (the empty string is falsy);
otherwise the body is JSON-parsed inside a try/catch, resolving with the
parsed value on success and with the raw body string on failure. -/
def makeRequestEnd (status : Nat) (responseData : List Char) : ReqResult :=
  .resolvedWith status
    (if responseData.isEmpty then .nullData
     else
       match jsonParse responseData with
       | some j => .jsonData j
       | none => .rawData responseData)

/-- `makeRequest`: the promise rejects on the request `error` event and
otherwise settles via the `end` handler over the concatenated body chunks. -/
def makeRequest : TransportOutcome → ReqResult
  | .reqError e => .rejectedWith e
  | .response status chunks => makeRequestEnd status chunks.flatten

def isRejected : ReqResult → Bool
  | .rejectedWith _ => true
  | _ => false

/-- The claim-side description of the resolution data: JSON-parsed body when
parsing succeeds, the raw body string when parsing fails, null when the body
is empty. -/
def respDataSpec (body : List Char) : RespData :=
  if body = [] then .nullData
  else
    match jsonParse body with
    | some j => .jsonData j
    | none => .rawData body

/-- C9. `makeRequest` never rejects because of an unparseable body: for
every status and body it resolves with `{status, data}` where `data` follows
`respDataSpec`, and a rejection can only come from the request error
event. -/
theorem makeRequest_resolves_on_any_body (status : Nat) (chunks : List (List Char)) :
    makeRequest (.response status chunks)
      = .resolvedWith status (respDataSpec chunks.flatten)
    ∧ isRejected (makeRequest (.response status chunks)) = false
    ∧ ∀ e : List Char, makeRequest (.reqError e) = .rejectedWith e := by
  refine ⟨?_, ?_, fun e => rfl⟩
  · simp only [makeRequest, makeRequestEnd, respDataSpec, List.isEmpty_iff]
  · simp [makeRequest, makeRequestEnd, isRejected]

/-! ### The `streamCompletion` request body (src/api/client.ts:246-272) -/

/-- An element of `options.files`: either a bare document-id string or an
`AttachmentPayload`, of which only `document_id` is read. -/
inductive FileRef where
  | strRef : List Char → FileRef
  | attachRef : List Char → FileRef

/-- `typeof file === 'string' ? file : file.document_id` (line 246). -/
def fileRefId : FileRef → List Char
  | .strRef s => s
  | .attachRef d => d

/-- The request-body fields of `streamCompletion` that vary per call; the
constant fields (styles, tools, locale, rendering mode) are omitted. -/
structure CompletionBody where
  prompt : List Char
  parentMessageUuid : Option (List Char)
  files : List (List Char)
deriving DecidableEq

/-- The body construction of `streamCompletion` (lines 246-272):
`parent_message_uuid` is `null` exactly when the supplied parent equals the
conversation id, and the files list is mapped through `fileRefId`. -/
def completionRequestBody (conversationId prompt parentMessageUuid : List Char)
    (files : List FileRef) : CompletionBody :=
  { prompt := prompt
    parentMessageUuid :=
      if parentMessageUuid = conversationId then none else some parentMessageUuid
    files := files.map fileRefId }

/-- C10. `streamCompletion` sends `parent_message_uuid: null` exactly when
the supplied parent uuid equals the conversation id, and otherwise sends the
supplied parent uuid unchanged. -/
theorem parent_uuid_null_iff_conversation (c prompt p : List Char)
    (files : List FileRef) :
    ((completionRequestBody c prompt p files).parentMessageUuid = none ↔ p = c)
    ∧ (completionRequestBody c prompt p files).parentMessageUuid
        = (if p = c then none else some p) := by
  constructor
  · by_cases h : p = c <;> simp [completionRequestBody, h]
  · rfl

/-! ### `parseStoredMessageContent` (src/renderer/main.ts:1623-1682) -/

/-- An element of a thinking block's `summaries` array as received on the
wire: either a `{summary: string}` record or a bare string. -/
inductive SummElem where
  | wrapped : List Char → SummElem
  | bare : List Char → SummElem
deriving DecidableEq

/-- JavaScript member access `e.summary` on a summaries element: the string
for the record form, `undefined` for a bare string. -/
def summaryField : SummElem → Option (List Char)
  | .wrapped s => some s
  | .bare _ => none

/-- A `display_content` object; only its optional `text` field is read. -/
structure DisplayContent where
  text : Option (List Char)
deriving DecidableEq

/-- An element of a tool_result block's `content` array, discriminated by
its `type` field as the walk does (`'knowledge'` with title/url/metadata,
`'text'` with text, anything else). -/
inductive RItem where
  | knowledgeItem : List Char → List Char → List Char → RItem
  | textItem : List Char → RItem
  | otherItem : List Char → RItem
deriving DecidableEq

def ritemIsText : RItem → Bool
  | .textItem _ => true
  | _ => false

/-- The `resultData` value computed in the tool_result branch
(lines 1646-1662). -/
inductive ResultData where
  | displayData : DisplayContent → ResultData
  | knowledgeResults : List ((List Char) × (List Char) × (List Char)) → ResultData
  | textResult : List Char → ResultData
  | noData : ResultData
deriving DecidableEq

def webSearchName : List Char := ("web_search").toList

/-- resultData: `display_content` wins outright; otherwise an array content
is filtered to knowledge entries for `web_search` or searched for the first
`text` entry; otherwise (or when no text entry exists) it stays null. -/
def computeResultData (name : List Char) (dc : Option DisplayContent)
    (content : Option (List RItem)) : ResultData :=
  match dc with
  | some d => .displayData d
  | none =>
    match content with
    | some items =>
      if name = webSearchName then
        .knowledgeResults (items.filterMap fun it =>
          match it with
          | .knowledgeItem t u m => some (t, u, m)
          | _ => none)
      else
        match items.find? ritemIsText with
        | some (.textItem t) => .textResult t
        | _ => .noData
    | none => .noData

/-- A stored content block handed to `parseStoredMessageContent`:
thinking (text, summaries), tool_use (name, message, display_content,
input — input kept opaque), tool_result (name, display_content, content,
is_error), text (text, citations kept opaque) or anything else. -/
inductive StoredBlock where
  | thinkingBlock : List Char → List SummElem → StoredBlock
  | toolUseBlock : List Char → Option (List Char) → Option DisplayContent → List Char → StoredBlock
  | toolResultBlock : List Char → Option DisplayContent → Option (List RItem) → Option Bool → StoredBlock
  | textBlock : List Char → List (List Char) → StoredBlock
  | otherBlock : List Char → StoredBlock
deriving DecidableEq

/-- JavaScript `a || b` on optional strings (the empty string is falsy), as
in `block.message || block.display_content?.text` (line 1641). -/
def jsOrStr (a b : Option (List Char)) : Option (List Char) :=
  match a with
  | some s => if s = [] then b else some s
  | none => b

/-- The pending `currentToolUse` object of the walk. -/
structure PendingTool where
  name : List Char
  message : Option (List Char)
  input : List Char
deriving DecidableEq

/-- A produced `Step`: thinking (text, last summary), tool (name, message,
input, attached result, attached is_error — `none` in the last two fields
when no result was ever attached) or text (text, citations). -/
inductive StepR where
  | thinkingStep : List Char → Option (List Char) → StepR
  | toolStep : List Char → Option (List Char) → List Char → Option ResultData → Option Bool → StepR
  | textStep : List Char → List (List Char) → StepR
deriving DecidableEq

/-- The loop body of `parseStoredMessageContent`, carrying `currentToolUse`:
a thinking block pushes a thinking step whose summary is the `summary` field
of the last summaries element; a tool_use block replaces the pending tool
(discarding any previous pending one); a tool_result block attaches to the
pending tool only when `currentToolUse.toolName === block.name`, pushing the
combined tool step, and is otherwise ignored; a text block pushes a text
step; after the walk a still-pending tool is pushed without a result. -/
def parseStoredLoop : Option PendingTool → List StoredBlock → List StepR
  | cur, [] =>
    match cur with
    | some p => [.toolStep p.name p.message p.input none none]
    | none => []
  | cur, b :: rest =>
    match b with
    | .thinkingBlock th ss =>
      .thinkingStep th
          (match ss.getLast? with
           | some e => summaryField e
           | none => none)
        :: parseStoredLoop cur rest
    | .toolUseBlock n m d inp =>
      parseStoredLoop (some ⟨n, jsOrStr m (d.bind fun dd => dd.text), inp⟩) rest
    | .toolResultBlock n dc cont err =>
      match cur with
      | some p =>
        if p.name = n then
          .toolStep p.name p.message p.input (some (computeResultData n dc cont)) err
            :: parseStoredLoop none rest
        else parseStoredLoop cur rest
      | none => parseStoredLoop cur rest
    | .textBlock t cits => .textStep t cits :: parseStoredLoop cur rest
    | .otherBlock _ => parseStoredLoop cur rest

/-- `parseStoredMessageContent` (src/renderer/main.ts:1623-1682). -/
def parseStoredMessageContent (blocks : List StoredBlock) : List StepR :=
  parseStoredLoop none blocks

/-- C7 counterexample: a thinking block whose `summaries` mixes the two wire
forms and ends with the bare string `"b"` produces a step with no summary —
the code reads `.summary` off the final element, which is `undefined` for a
bare string — refuting the claim that the last-summary computation yields
the textual digest of the final element regardless of its form. -/
theorem thinking_summary_bare_counterexample :
    parseStoredMessageContent
        [.thinkingBlock (("tt").toList) [.wrapped (("a").toList), .bare (("b").toList)]]
      = [.thinkingStep (("tt").toList) none]
    ∧ decide (parseStoredMessageContent
        [.thinkingBlock (("tt").toList) [.wrapped (("a").toList), .bare (("b").toList)]]
      = [.thinkingStep (("tt").toList) (some (("b").toList))]) = false :=
  ⟨by decide, by decide⟩

/-- C7 (amended). The last-summary computation returns the `summary` field
of the final `summaries` element: a `{summary: string}` record yields its
string, while a bare-string final element yields no digest (undefined) — and
an empty `summaries` sequence also yields none. -/
theorem thinking_summary_field_behavior (t s : List Char) (ss : List SummElem) :
    parseStoredMessageContent [.thinkingBlock t (ss ++ [.wrapped s])]
      = [.thinkingStep t (some s)]
    ∧ parseStoredMessageContent [.thinkingBlock t (ss ++ [.bare s])]
      = [.thinkingStep t none]
    ∧ parseStoredMessageContent [.thinkingBlock t []]
      = [.thinkingStep t none] := by
  refine ⟨?_, ?_, by simp [parseStoredMessageContent, parseStoredLoop]⟩
  · simp [parseStoredMessageContent, parseStoredLoop, List.getLast?_concat, summaryField]
  · simp [parseStoredMessageContent, parseStoredLoop, List.getLast?_concat, summaryField]

def stepToolNamed (n : List Char) : StepR → Bool
  | .toolStep m _ _ _ _ => m = n
  | _ => false

/-- C8 counterexample: two consecutive tool_use blocks named `"a"` and
`"b"`, neither receiving a result — the walk emits a single step, for
`"b"`, and no step for `"a"` appears, refuting the claim that a ToolUse
block that never receives a result is still emitted as a step at the end of
the walk. -/
theorem tool_use_overwrite_counterexample :
    parseStoredMessageContent
        [.toolUseBlock (("a").toList) none none (("i1").toList),
         .toolUseBlock (("b").toList) none none (("i2").toList)]
      = [.toolStep (("b").toList) none (("i2").toList) none none]
    ∧ ((parseStoredMessageContent
        [.toolUseBlock (("a").toList) none none (("i1").toList),
         .toolUseBlock (("b").toList) none none (("i2").toList)]).all
        fun step => ! stepToolNamed (("a").toList) step) = true :=
  ⟨by decide, by decide⟩

/-- C8 (amended). A tool_result block is attached (with its computed result
content and `is_error` flag) to the pending most-recent tool_use block only
when their names match; a tool_result whose name differs from the pending
tool's is dropped and the pending tool is later emitted without a result;
and a pending tool_use overwritten by a subsequent tool_use block is
discarded — only the most recent resultless pending tool is emitted at the
end of the walk. -/
theorem tool_result_association_behavior (n m : List Char)
    (msg : Option (List Char)) (d : Option DisplayContent) (inp : List Char)
    (dc : Option DisplayContent) (cont : Option (List RItem)) (err : Option Bool)
    (hmn : m ≠ n) :
    parseStoredMessageContent [.toolUseBlock n msg d inp, .toolResultBlock n dc cont err]
      = [.toolStep n (jsOrStr msg (d.bind fun dd => dd.text)) inp
          (some (computeResultData n dc cont)) err]
    ∧ parseStoredMessageContent [.toolUseBlock n msg d inp, .toolResultBlock m dc cont err]
      = [.toolStep n (jsOrStr msg (d.bind fun dd => dd.text)) inp none none]
    ∧ parseStoredMessageContent [.toolUseBlock n msg d inp, .toolUseBlock m msg d inp]
      = [.toolStep m (jsOrStr msg (d.bind fun dd => dd.text)) inp none none] := by
  refine ⟨?_, ?_, ?_⟩
  · simp [parseStoredMessageContent, parseStoredLoop]
  · simp [parseStoredMessageContent, parseStoredLoop, Ne.symm hmn]
  · simp [parseStoredMessageContent, parseStoredLoop]

/-- Concrete instance for `tool_result_association_behavior` with tool names
`"a"` and `"b"`. -/
theorem tool_result_association_behavior_witness :
    parseStoredMessageContent
        [.toolUseBlock (("a").toList) none none (("x").toList),
         .toolResultBlock (("a").toList) none none none]
      = [.toolStep (("a").toList)
          (jsOrStr none ((none : Option DisplayContent).bind fun dd => dd.text))
          (("x").toList)
          (some (computeResultData (("a").toList) none none)) none]
    ∧ parseStoredMessageContent
        [.toolUseBlock (("a").toList) none none (("x").toList),
         .toolResultBlock (("b").toList) none none none]
      = [.toolStep (("a").toList)
          (jsOrStr none ((none : Option DisplayContent).bind fun dd => dd.text))
          (("x").toList) none none]
    ∧ parseStoredMessageContent
        [.toolUseBlock (("a").toList) none none (("x").toList),
         .toolUseBlock (("b").toList) none none (("x").toList)]
      = [.toolStep (("b").toList)
          (jsOrStr none ((none : Option DisplayContent).bind fun dd => dd.text))
          (("x").toList) none none] :=
  tool_result_association_behavior (("a").toList) (("b").toList) none none
    (("x").toList) none none none (by decide)

end OpenClaude
